import Mathlib

/-!
Shallow embedding of the geneagrapher core: the genealogy-graph data model
(`Record`, `Node`, `Graph`) and the Graphviz dot renderer
(`Graph.generate_dot_file`), translated from
`src/geneagrapher/graph/node.py` and `src/geneagrapher_lib/graph/record.py`.

Python optional values (`None`) are modelled by `Option`; the Python `dict`
keyed by node ids (which may be `None`) is modelled by an association list
over `Option Int` keys with Python's update-in-place / append-new semantics;
exceptions are modelled by returning the unchanged state paired with an
optional error value (a raised exception leaves the object unchanged, since
the source raises before any mutation).
-/

/-- Record of a mathematician: `name`, optional `institution`, optional
degree `year`, optional Math Genealogy Project `id`
(both `node.py` and `record.py` declare the same fields). -/
structure Record where
  name : String
  institution : Option String
  year : Option Int
  id : Option Int
deriving DecidableEq, Repr

/-- `Record.has_institution` from the source: the institution is not None. -/
def Record.has_institution (r : Record) : Bool :=
  r.institution.isSome

/-- `Record.has_year` from the source: the year is not None. -/
def Record.has_year (r : Record) : Bool :=
  r.year.isSome

/-- `Record.__eq__` from `record.py`: `self.id == r2.id` (Python `None == None`
is `True`, `None == int` is `False`, matching `Option` `BEq`). -/
def Record.eq (r1 r2 : Record) : Bool :=
  r1.id == r2.id

/-- `Record.__str__` from `record.py`.  The ` \n` separator is the literal
two characters backslash and `n` (Python `' \\n'`), not a line break. -/
def Record.str (r : Record) : String :=
  if r.has_institution then
    if r.has_year then
      r.name ++ " \\n" ++ r.institution.getD "" ++ " (" ++ toString (r.year.getD 0) ++ ")"
    else
      r.name ++ " \\n" ++ r.institution.getD ""
  else
    if r.has_year then
      r.name ++ " \\n(" ++ toString (r.year.getD 0) ++ ")"
    else
      r.name

/-- Graph node from `node.py`: a record, the ancestor and descendant id
lists, and the `already_printed` rendering flag (initially false). -/
structure Node where
  record : Record
  ancestors : List Int
  descendants : List Int
  already_printed : Bool
deriving DecidableEq, Repr

/-- `Node.get_id` from the source: the wrapped record's id. -/
def Node.get_id (n : Node) : Option Int :=
  n.record.id

/-- `Node.set_id` from the source: overwrite the wrapped record's id. -/
def Node.set_id (n : Node) (i : Option Int) : Node :=
  { n with record := { n.record with id := i } }

/-- `Node.__str__` from `node.py`: same four cases as `Record.__str__`
(with `.encode('utf-8','replace')` a no-op on the modelled strings). -/
def Node.str (n : Node) : String :=
  if n.record.has_institution then
    if n.record.has_year then
      n.record.name ++ " \\n" ++ n.record.institution.getD "" ++ " (" ++ toString (n.record.year.getD 0) ++ ")"
    else
      n.record.name ++ " \\n" ++ n.record.institution.getD ""
  else
    if n.record.has_year then
      n.record.name ++ " \\n(" ++ toString (n.record.year.getD 0) ++ ")"
    else
      n.record.name

/-- The Python dict `Graph.nodes`: association list keyed by the (possibly
absent) node id, with keys unique by construction via `dictSet`. -/
abbrev Dict := List (Option Int × Node)

/-- Python `id in dict` / `dict.has_key(id)` membership test. -/
def dictHasKey (d : Dict) (k : Option Int) : Bool :=
  d.any fun p => p.1 == k

/-- Python `dict[id]` lookup (first entry with the key). -/
def dictGet (d : Dict) (k : Option Int) : Option Node :=
  (d.find? fun p => p.1 == k).map fun p => p.2

/-- Python `dict[id] = node`: update the entry in place if the key exists,
otherwise append a new entry. -/
def dictSet (d : Dict) (k : Option Int) (v : Node) : Dict :=
  if dictHasKey d k then d.map fun p => if p.1 == k then (k, v) else p
  else d ++ [(k, v)]

/-- `DuplicateNodeError` from the source; `value` holds the message string
the constructor received. -/
structure DuplicateNodeError where
  value : String
deriving DecidableEq, Repr

/-- Python `str(x)` on a queue element: `str(None) = "None"`, integers print
in decimal. -/
def formatOptId : Option Int → String
  | none => "None"
  | some i => toString i

/-- Genealogy graph from `node.py`: optional head list, the synthetic-id
counter `supp_id` (initially -1), and the id-keyed node dict. -/
structure Graph where
  heads : Option (List Node)
  supp_id : Int
  nodes : Dict
deriving DecidableEq, Repr

/-- `Graph.__init__`: store `heads`, set `supp_id = -1`, and seed `nodes`
with `nodes[head.get_id()] = head` for each head in order (no duplicate
check: a later head with the same id silently overwrites an earlier one). -/
def Graph.init (heads : Option (List Node)) : Graph :=
  { heads := heads
    supp_id := -1
    nodes :=
      match heads with
      | none => []
      | some hs => hs.foldl (fun d h => dictSet d h.get_id h) [] }

/-- `Graph.has_node` from the source. -/
def Graph.has_node (g : Graph) (k : Option Int) : Bool :=
  dictHasKey g.nodes k

/-- `Graph.get_node` from the source: the node with the given id, or None. -/
def Graph.get_node (g : Graph) (k : Option Int) : Option Node :=
  dictGet g.nodes k

/-- `Graph.add_node_object`: raise `DuplicateNodeError` if the node's id is
present and already a key (returning the graph unchanged, as the source
raises before mutating); otherwise assign the synthetic id when the id is
absent, insert under the resolved id, and update `heads`. -/
def Graph.add_node_object (g : Graph) (node : Node) (isHead : Bool) :
    Graph × Option DuplicateNodeError :=
  if node.get_id.isSome && g.has_node node.get_id then
    (g, some ⟨"node with id " ++ formatOptId node.get_id ++ " already exists"⟩)
  else
    let assign := node.get_id.isNone
    let node' := if assign then node.set_id (some g.supp_id) else node
    let supp' := if assign then g.supp_id - 1 else g.supp_id
    let nodes' := dictSet g.nodes node'.get_id node'
    let heads' :=
      match g.heads with
      | none => some [node']
      | some hs => if isHead then some (hs ++ [node']) else some hs
    ({ heads := heads', supp_id := supp', nodes := nodes' }, none)

/-- `Graph.add_node`: build the `Record` and `Node` (with `already_printed`
false) and delegate to `add_node_object`. -/
def Graph.add_node (g : Graph) (name : String) (institution : Option String)
    (year : Option Int) (id : Option Int) (ancestors descendants : List Int)
    (isHead : Bool) : Graph × Option DuplicateNodeError :=
  g.add_node_object
    { record := { name := name, institution := institution, year := year, id := id }
      ancestors := ancestors
      descendants := descendants
      already_printed := false } isHead

/-- The fixed preamble emitted by `generate_dot_file` (the triple-quoted
header plus the explicit final two newlines). -/
def dotPreamble : String :=
  "digraph genealogy \x7b\n    graph [charset=\"utf-8\"];\n    node [shape=plaintext];\n    edge [style=bold];\n\n"

/-- The node-definition line `    <id> [label="<label>"];` from the loop
body of `generate_dot_file`. -/
def nodeLine (k : Option Int) (n : Node) : String :=
  "    " ++ formatOptId k ++ " [label=\"" ++ Node.str n ++ "\"];"

/-- One edge line `\n    <ancestor> -> <node>;` from `generate_dot_file`. -/
def edgeLine (a : Int) (k : Option Int) : String :=
  "\n    " ++ toString a ++ " -> " ++ formatOptId k ++ ";"

/-- Concatenation of a list of strings (used to state how the renderer's
accumulators decompose). -/
def concatAll : List String → String
  | [] => ""
  | s :: l => s ++ concatAll l

/-- The block of edge lines one emitted node contributes: one line per
stored ancestor that is currently a key of the dict, in stored order;
absent ancestors contribute nothing. -/
def edgeBlock (nodes : Dict) (k : Option Int) (anc : List Int) : String :=
  concatAll (anc.map fun a => if dictHasKey nodes (some a) then edgeLine a k else "")

/-- Total adjacency weight of the not-yet-printed entries of the dict: an
upper bound on the ids the rendering loop can still push. -/
def pot (d : Dict) : Nat :=
  (d.map fun p =>
    if p.2.already_printed then 0
    else p.2.ancestors.length + p.2.descendants.length).sum

/-- Fuel that provably suffices for the rendering loop: pending stack
entries plus the adjacency weight of everything still printable. -/
def fuelFor (nodes : Dict) (stack : List (Option Int)) : Nat :=
  stack.length + pot nodes

/-- The `while len(queue) > 0` loop of `generate_dot_file`.

Python's `queue.pop()` removes the *last* element and `queue += l` appends,
so the model keeps the queue reversed (top of the stack first): the initial
stack is the reversed head-id list, and a push of an adjacency list
prepends that list reversed.  The per-advisor `edges += ...` loop is the
`foldl` below.  `fuel` only bounds the iteration count; `renderLoop` returns
`none` exactly when fuel runs out, which `renderLoop_isSome` proves never
happens at `fuelFor`. -/
def renderLoop (ia idf : Bool) :
    Nat → Dict → List (Option Int) → String → String →
    Option (Dict × String × String)
  | _, nodes, [], dotfile, edges => some (nodes, dotfile, edges)
  | 0, _, _ :: _, _, _ => none
  | fuel + 1, nodes, node_id :: stack, dotfile, edges =>
    match dictGet nodes node_id with
    | none => renderLoop ia idf fuel nodes stack dotfile edges
    | some node =>
      if node.already_printed then
        renderLoop ia idf fuel nodes stack dotfile edges
      else
        let nodes' := dictSet nodes node_id { node with already_printed := true }
        let stack₁ := if ia then (node.ancestors.map some).reverse ++ stack else stack
        let stack₂ := if idf then (node.descendants.map some).reverse ++ stack₁ else stack₁
        let edges' := node.ancestors.foldl
          (fun acc a => if dictHasKey nodes' (some a) then acc ++ edgeLine a node_id else acc)
          edges
        renderLoop ia idf fuel nodes' stack₂ (dotfile ++ nodeLine node_id node ++ "\n") edges'

/-- `Graph.generate_dot_file`: empty string when `heads` is None, otherwise
preamble, traversal loop, then the edge accumulator and `\n}\n`.  The
second component is the graph afterwards (the loop set `already_printed`
flags in `self.nodes`).  The `none` fallback is the unreachable fuel-
exhaustion case. -/
def Graph.generate_dot_file (g : Graph) (include_ancestors include_descendants : Bool) :
    String × Graph :=
  match g.heads with
  | none => ("", g)
  | some hs =>
    let stack := (hs.map Node.get_id).reverse
    match renderLoop include_ancestors include_descendants
        (fuelFor g.nodes stack) g.nodes stack dotPreamble "" with
    | some (nodes', dotfile, edges) =>
      (dotfile ++ edges ++ "\n\x7d\n", { g with nodes := nodes' })
    | none => ("", g)

/-- Insert a list of nodes (each with its `isHead` flag) in order, collecting
the synthetic ids assigned along the way; a `DuplicateNodeError` leaves the
graph unchanged and the insertion sequence continues. -/
def insertAll : Graph → List (Node × Bool) → Graph × List Int
  | g, [] => (g, [])
  | g, nb :: rest =>
    let step := g.add_node_object nb.1 nb.2
    let tr := if nb.1.get_id.isNone then [g.supp_id] else []
    let r := insertAll step.1 rest
    (r.1, tr ++ r.2)

/-- Graph states reachable from a constructor call by `add_node_object` /
`add_node` calls (`add_node` factors through `add_node_object`, and a failed
call returns the unchanged graph). -/
inductive Reachable : Graph → Prop
  | init (heads : Option (List Node)) : Reachable (Graph.init heads)
  | add (g : Graph) (node : Node) (isHead : Bool) :
      Reachable g → Reachable ((g.add_node_object node isHead).1)

/-- Concrete fixture: the single head of the §8 rendering scenario
(id 5, name "A. Mathematician", no institution, no year). -/
def nodeA5 : Node := ⟨⟨"A. Mathematician", none, none, some 5⟩, [], [], false⟩

/-- Concrete fixture: graph holding exactly `nodeA5`, inserted as a head. -/
def gA5 : Graph := ((Graph.init none).add_node_object nodeA5 true).1

/-- Concrete fixture: node 5 with ancestor list `[3]`. -/
def nodeFive : Node := ⟨⟨"Five", none, none, some 5⟩, [3], [], false⟩

/-- Concrete fixture: node 3 with no ancestors. -/
def nodeThree : Node := ⟨⟨"Three", none, none, some 3⟩, [], [], false⟩

/-- Concrete fixture: graph with head 5 (ancestors `[3]`) and non-head 3. -/
def gFiveThree : Graph :=
  (((Graph.init none).add_node_object nodeFive true).1.add_node_object nodeThree false).1

/-- Concrete fixture: a node with id 5 named "A". -/
def nodeDupA : Node := ⟨⟨"A", none, none, some 5⟩, [], [], false⟩

/-- Concrete fixture: a distinct node that also has id 5. -/
def nodeDupB : Node := ⟨⟨"B", none, none, some 5⟩, [], [], false⟩

/-- Concrete fixture: a node whose record has an absent id. -/
def nodeNoId : Node := ⟨⟨"N. Nemo", none, none, none⟩, [], [], false⟩

/-- Additional fixture: a graph already containing a node with id 5. -/
def gDup : Graph := ((Graph.init none).add_node_object nodeDupA true).1

/-- Key/value predicate preservation under a Python-style dict store. -/
theorem dictSet_all {P : Option Int × Node → Bool} {d : Dict} {k : Option Int} {v : Node}
    (hd : d.all P = true) (hv : P (k, v) = true) : (dictSet d k v).all P = true := by
  unfold dictSet
  split
  · rw [List.all_eq_true] at hd ⊢
    intro p hp
    rw [List.mem_map] at hp
    obtain ⟨q, hq, rfl⟩ := hp
    by_cases h : q.1 == k
    · simp only [h, if_pos]
      exact hv
    · simp only [h, if_neg, Bool.false_eq_true, not_false_iff]
      exact hd q hq
  · rw [List.all_append]
    simp [hd, hv]

/-- Seeding the node dict from a head list preserves the key-id invariant. -/
theorem initNodes_all : ∀ (hs : List Node) (d : Dict),
    d.all (fun p => p.2.record.id == p.1) = true →
    (hs.foldl (fun d h => dictSet d h.get_id h) d).all (fun p => p.2.record.id == p.1) = true := by
  intro hs
  induction hs with
  | nil => intro d hd; exact hd
  | cons h t ih =>
    intro d hd
    exact ih _ (dictSet_all hd (by simp [Node.get_id]))

/-- `add_node_object` never increases the synthetic-id counter. -/
theorem add_supp_le (g : Graph) (node : Node) (isHead : Bool) :
    (g.add_node_object node isHead).1.supp_id ≤ g.supp_id := by
  unfold Graph.add_node_object
  split
  · exact le_refl _
  · dsimp only
    split
    · omega
    · exact le_refl _

/-- Inserting a node with an absent id decrements the counter by one. -/
theorem add_none_supp (g : Graph) (node : Node) (isHead : Bool) (h : node.get_id = none) :
    (g.add_node_object node isHead).1.supp_id = g.supp_id - 1 := by
  simp [Graph.add_node_object, h]

/-- Every synthetic id collected by `insertAll` is at most the starting
counter value. -/
theorem insertAll_trace_le : ∀ (ns : List (Node × Bool)) (g : Graph) (i : Int),
    i ∈ (insertAll g ns).2 → i ≤ g.supp_id := by
  intro ns
  induction ns with
  | nil => intro g i h; simp [insertAll] at h
  | cons nb rest ih =>
    intro g i h
    simp only [insertAll] at h
    rw [List.mem_append] at h
    rcases h with h | h
    · split at h
      · simp at h
        omega
      · simp at h
    · calc i ≤ (g.add_node_object nb.1 nb.2).1.supp_id := ih _ _ h
        _ ≤ g.supp_id := add_supp_le _ _ _

/-- The synthetic ids collected by `insertAll` are strictly decreasing. -/
theorem insertAll_chain : ∀ (ns : List (Node × Bool)) (g : Graph),
    ((insertAll g ns).2).Chain' (· > ·) := by
  intro ns
  induction ns with
  | nil => intro g; simp [insertAll]
  | cons nb rest ih =>
    intro g
    simp only [insertAll]
    by_cases hid : nb.1.get_id.isNone
    · have hid' : nb.1.get_id = none := Option.isNone_iff_eq_none.mp hid
      simp only [hid, if_pos, List.singleton_append]
      rw [List.chain'_cons']
      refine ⟨?_, ih _⟩
      intro y hy
      have hmem : y ∈ (insertAll (g.add_node_object nb.1 nb.2).1 rest).2 :=
        List.mem_of_mem_head? hy
      have h1 := insertAll_trace_le _ _ _ hmem
      have h2 := add_none_supp g nb.1 nb.2 hid'
      rw [h2] at h1
      omega
    · simp only [hid, if_neg, Bool.false_eq_true, not_false_iff, List.nil_append]
      exact ih _

/-- Trace of inserting only absent-id nodes: counter value, counter minus
one, and so on. -/
theorem insertAll_allNone : ∀ (ns : List (Node × Bool)) (g : Graph),
    (∀ nb ∈ ns, nb.1.get_id = none) →
    (insertAll g ns).2 = (List.range ns.length).map (fun k : Nat => g.supp_id - (k : Int)) := by
  intro ns
  induction ns with
  | nil => intro g _; simp [insertAll]
  | cons nb rest ih =>
    intro g h
    have hid : nb.1.get_id = none := h nb (List.mem_cons_self _ _)
    have hidb : nb.1.get_id.isNone = true := by rw [hid]; rfl
    simp only [insertAll, hidb, if_pos, List.singleton_append]
    rw [ih _ (fun x hx => h x (List.mem_cons_of_mem _ hx))]
    rw [add_none_supp _ _ _ hid]
    rw [List.length_cons, List.range_succ_eq_map]
    rw [List.map_cons, List.map_map]
    refine congrArg₂ _ (by omega) ?_
    apply List.map_congr_left
    intro a _
    simp only [Function.comp_apply]
    push_cast
    ring

/-- Claim C10: `Record.__eq__` compares exactly the `id` fields as values:
two Records are equal iff their ids are equal, two absent ids compare
equal, and an absent id is unequal to every integer id. -/
theorem C10_record_equality :
    (∀ r1 r2 : Record, Record.eq r1 r2 = true ↔ r1.id = r2.id) ∧
    (∀ r1 r2 : Record, r1.id = none → r2.id = none → Record.eq r1 r2 = true) ∧
    (∀ (r1 r2 : Record) (i : Int), r1.id = none → r2.id = some i →
      Record.eq r1 r2 = false) := by
  refine ⟨?_, ?_, ?_⟩ <;> intros <;> simp_all [Record.eq]

/-- Witness for C10 at a concrete absent-id / integer-id pair. -/
theorem C10_record_equality_witness :
    Record.eq ⟨"A", none, none, none⟩ ⟨"B", none, none, some 7⟩ = false :=
  C10_record_equality.2.2 _ _ 7 rfl rfl

/-- Claim C8: the rendered label body follows the four-row table with the
literal two-character `\n` separator (here shown as the escaped Lean
string), the institution-and-year case for X/Y/1990 is exactly
`X \nY (1990)` (twelve characters, none of them a line break), name alone
when institution and year are both absent, and the two implementations
(`Node.__str__` and `Record.__str__`) agree on every record. -/
theorem C8_label_rendering :
    (∀ n : Node, Node.str n = Record.str n.record) ∧
    (∀ r : Record, r.institution = none → r.year = none → Record.str r = r.name) ∧
    (∀ (r : Record) (inst : String) (y : Int), r.institution = some inst → r.year = some y →
      Record.str r = r.name ++ " \\n" ++ inst ++ " (" ++ toString y ++ ")") ∧
    (∀ (r : Record) (inst : String), r.institution = some inst → r.year = none →
      Record.str r = r.name ++ " \\n" ++ inst) ∧
    (∀ (r : Record) (y : Int), r.institution = none → r.year = some y →
      Record.str r = r.name ++ " \\n(" ++ toString y ++ ")") ∧
    Record.str ⟨"X", some "Y", some 1990, none⟩ = "X \\nY (1990)" ∧
    Node.str ⟨⟨"X", some "Y", some 1990, none⟩, [], [], false⟩ = "X \\nY (1990)" ∧
    (Record.str ⟨"X", some "Y", some 1990, none⟩).data =
      ['X', ' ', '\\', 'n', 'Y', ' ', '(', '1', '9', '9', '0', ')'] := by
  refine ⟨fun n => rfl, ?_, ?_, ?_, ?_, by decide, by decide, by decide⟩
  · intro r h1 h2
    simp [Record.str, Record.has_institution, Record.has_year, h1, h2]
  · intro r inst y h1 h2
    simp [Record.str, Record.has_institution, Record.has_year, h1, h2]
  · intro r inst h1 h2
    simp [Record.str, Record.has_institution, Record.has_year, h1, h2]
  · intro r y h1 h2
    simp [Record.str, Record.has_institution, Record.has_year, h1, h2]

/-- Witness for C8 at a concrete institution-and-year record. -/
theorem C8_label_rendering_witness :
    Record.str ⟨"W", some "V", some 2000, some 1⟩ =
      ("W" : String) ++ " \\n" ++ "V" ++ " (" ++ toString (2000 : Int) ++ ")" :=
  C8_label_rendering.2.2.1 _ "V" 2000 rfl rfl

/-- Claim C3 counterexample: constructor pre-seeding performs no duplicate
check — two heads with the same resolved id 5 produce no
`DuplicateNodeError`; the second silently overwrites the first in the
nodes map (and both stay in `heads`), so the claim's "inserting ... via
constructor pre-seeding of heads fails with DuplicateNodeError" is false. -/
theorem C3_counterexample :
    (Graph.init (some [nodeDupA, nodeDupB])).nodes = [(some 5, nodeDupB)] ∧
    (Graph.init (some [nodeDupA, nodeDupB])).heads = some [nodeDupA, nodeDupB] := by
  exact ⟨by decide, rfl⟩

/-- Claim C3 (amended): inserting through `add_node_object` or `add_node` a
node whose record carries a present id that is already a key fails with a
`DuplicateNodeError` whose message carries the colliding id, and returns
the graph completely unchanged (same nodes map, heads and counter);
constructor pre-seeding and synthetic-id collisions, by contrast, overwrite
silently. -/
theorem C3_duplicate_insert :
    (∀ (g : Graph) (node : Node) (isHead : Bool) (j : Int),
      node.get_id = some j → g.has_node (some j) = true →
      g.add_node_object node isHead =
        (g, some ⟨"node with id " ++ toString j ++ " already exists"⟩)) ∧
    (∀ (g : Graph) (name : String) (institution : Option String) (year : Option Int)
      (j : Int) (ancestors descendants : List Int) (isHead : Bool),
      g.has_node (some j) = true →
      g.add_node name institution year (some j) ancestors descendants isHead =
        (g, some ⟨"node with id " ++ toString j ++ " already exists"⟩)) := by
  constructor
  · intro g node isHead j hid hmem
    simp [Graph.add_node_object, hid, hmem, formatOptId]
  · intro g name inst year j anc desc isHead hmem
    simp [Graph.add_node, Graph.add_node_object, Node.get_id, hmem, formatOptId]

/-- Witness for C3 (amended) at a concrete collision on id 5. -/
theorem C3_duplicate_insert_witness :
    gDup.add_node_object nodeDupB false =
      (gDup, some ⟨"node with id " ++ toString (5 : Int) ++ " already exists"⟩) :=
  C3_duplicate_insert.1 gDup nodeDupB false 5 rfl (by decide)

/-- Claim C7 counterexample: a Graph constructed with an explicit empty
heads list is empty (no nodes), yet the first node inserted with
`isHead = false` is stored in the nodes map without ever becoming a head —
`heads` stays `[]` because the source tests `heads is None`, not emptiness. -/
theorem C7_counterexample :
    (Graph.init (some [])).nodes = [] ∧
    ((Graph.init (some [])).add_node_object nodeA5 false).1.nodes = [(some 5, nodeA5)] ∧
    ((Graph.init (some [])).add_node_object nodeA5 false).1.heads = some [] := by
  refine ⟨rfl, by decide, by decide⟩

/-- Claim C7 (amended): the first node successfully inserted into a Graph
whose heads list is unset (constructed without one) becomes the sole head
even with `isHead = false`; once `heads` is a list — even an explicitly
empty one — `isHead = true` appends the (resolved) node and
`isHead = false` never touches `heads`. -/
theorem C7_implicit_head :
    (∀ (g : Graph) (node : Node) (isHead : Bool),
      g.heads = none → (node.get_id.isSome && g.has_node node.get_id) = false →
      ((g.add_node_object node isHead).1).heads =
        some [if node.get_id.isNone then node.set_id (some g.supp_id) else node]) ∧
    (∀ (g : Graph) (hs : List Node) (node : Node),
      g.heads = some hs → (node.get_id.isSome && g.has_node node.get_id) = false →
      ((g.add_node_object node true).1).heads =
        some (hs ++ [if node.get_id.isNone then node.set_id (some g.supp_id) else node]) ∧
      ((g.add_node_object node false).1).heads = some hs) := by
  constructor
  · intro g node isHead hh hcond
    simp [Graph.add_node_object, hcond, hh]
  · intro g hs node hh hcond
    constructor <;> simp [Graph.add_node_object, hcond, hh]

/-- Witness for C7 (amended): first insertion with `isHead = false` into a
heads-unset graph still becomes the sole head. -/
theorem C7_implicit_head_witness :
    ((Graph.init none).add_node_object nodeA5 false).1.heads =
      some [if nodeA5.get_id.isNone then nodeA5.set_id (some (Graph.init none).supp_id)
            else nodeA5] :=
  C7_implicit_head.1 (Graph.init none) nodeA5 false rfl (by decide)

/-- Claim C6 counterexample: a head pre-seeded with an absent id is stored
under the key `None`, which is neither a real id (the record has none) nor
a synthetic id (none is ever assigned — the counter is untouched at -1), so
"every key equals the resolved id (real or synthetic)" fails. -/
theorem C6_counterexample :
    (Graph.init (some [nodeNoId])).nodes = [(none, nodeNoId)] ∧
    (Graph.init (some [nodeNoId])).supp_id = -1 := by
  exact ⟨by decide, rfl⟩

/-- Claim C6 (amended): at every reachable Graph state, every key of the
nodes map equals the (possibly absent) id stored in that node's record —
the real id when present at insertion, the synthetic id when one was
assigned, and the absent marker for constructor-seeded heads without an
id. -/
theorem C6_key_id_invariant : ∀ g : Graph, Reachable g →
    g.nodes.all (fun p => p.2.record.id == p.1) = true := by
  intro g hg
  induction hg with
  | init heads =>
    cases heads with
    | none => rfl
    | some hs => exact initNodes_all hs [] rfl
  | add g node isHead _ ih =>
    by_cases hc : node.get_id.isSome && g.has_node node.get_id
    · simpa [Graph.add_node_object, hc] using ih
    · simp only [Graph.add_node_object, hc, if_neg, Bool.false_eq_true, not_false_iff]
      apply dictSet_all ih
      by_cases ha : node.get_id.isNone <;> simp [ha, Node.get_id, Node.set_id]

/-- Witness for C6 (amended) at a concretely seeded graph. -/
theorem C6_key_id_invariant_witness :
    (Graph.init (some [nodeFive])).nodes.all (fun p => p.2.record.id == p.1) = true :=
  C6_key_id_invariant _ (Reachable.init _)

/-- Claim C5: inserting N absent-id nodes into an empty graph assigns
synthetic ids -1, -2, …, -N in insertion order, and across any insertion
sequence into a constructed Graph the assigned synthetic ids are strictly
negative and strictly decreasing. -/
theorem C5_synthetic_ids :
    (∀ ns : List (Node × Bool), (∀ nb ∈ ns, nb.1.get_id = none) →
      (insertAll (Graph.init none) ns).2 =
        (List.range ns.length).map (fun k : Nat => -1 - (k : Int))) ∧
    (∀ (heads : Option (List Node)) (ns : List (Node × Bool)),
      ((insertAll (Graph.init heads) ns).2).Chain' (· > ·) ∧
      ∀ i ∈ (insertAll (Graph.init heads) ns).2, i < 0) := by
  constructor
  · intro ns h
    rw [insertAll_allNone ns _ h]
    rfl
  · intro heads ns
    refine ⟨insertAll_chain _ _, ?_⟩
    intro i hi
    have h1 := insertAll_trace_le _ _ _ hi
    have h2 : (Graph.init heads).supp_id = -1 := rfl
    omega

/-- Witness for C5: two absent-id insertions get ids -1 and -2. -/
theorem C5_synthetic_ids_witness :
    (insertAll (Graph.init none) [(nodeNoId, false), (nodeNoId, false)]).2 =
      (List.range 2).map (fun k : Nat => -1 - (k : Int)) :=
  C5_synthetic_ids.1 _ (by decide)

/-- Unfolding lemma: key membership at a cons cell. -/
theorem dictHasKey_cons (p : Option Int × Node) (d : Dict) (k : Option Int) :
    dictHasKey (p :: d) k = (p.1 == k || dictHasKey d k) := by
  simp [dictHasKey]

/-- Unfolding lemma: lookup at a cons cell. -/
theorem dictGet_cons (p : Option Int × Node) (d : Dict) (k : Option Int) :
    dictGet (p :: d) k = if p.1 == k then some p.2 else dictGet d k := by
  by_cases h : p.1 == k
  · rw [if_pos h]
    unfold dictGet
    rw [List.find?_cons_of_pos (p := fun q : Option Int × Node => q.1 == k) _ h]
    rfl
  · rw [if_neg h]
    unfold dictGet
    rw [List.find?_cons_of_neg (p := fun q : Option Int × Node => q.1 == k) _ h]

/-- Key membership agrees with lookup success. -/
theorem dictHasKey_eq_isSome : ∀ (d : Dict) (k : Option Int),
    dictHasKey d k = (dictGet d k).isSome := by
  intro d k
  induction d with
  | nil => rfl
  | cons p d ih =>
    rw [dictHasKey_cons, dictGet_cons]
    by_cases h : p.1 == k
    · simp [h]
    · simp only [h, Bool.false_or, if_neg]
      exact ih

/-- The in-place branch of `dictSet` leaves every key membership unchanged. -/
theorem dictHasKey_map_set : ∀ (d : Dict) (k k' : Option Int) (v : Node),
    dictHasKey (d.map fun p => if p.1 == k then (k, v) else p) k' = dictHasKey d k' := by
  intro d k k' v
  induction d with
  | nil => rfl
  | cons p d ih =>
    rw [List.map_cons, dictHasKey_cons, dictHasKey_cons, ih]
    by_cases h : p.1 == k
    · have hpk : p.1 = k := eq_of_beq h
      rw [if_pos h, hpk]
    · rw [if_neg h]

/-- Storing at an existing key leaves every key membership unchanged. -/
theorem dictSet_hasKey (d : Dict) (k : Option Int) (v : Node)
    (hk : dictHasKey d k = true) (k' : Option Int) :
    dictHasKey (dictSet d k v) k' = dictHasKey d k' := by
  unfold dictSet
  rw [if_pos hk]
  exact dictHasKey_map_set d k k' v

/-- After the in-place branch of a store, looking up the stored key yields
the stored value. -/
theorem dictGet_map_set_self : ∀ (d : Dict) (k : Option Int) (v : Node),
    dictHasKey d k = true →
    dictGet (d.map fun p => if p.1 == k then (k, v) else p) k = some v := by
  intro d k v
  induction d with
  | nil => intro hk; simp [dictHasKey] at hk
  | cons p d ih =>
    intro hk
    rw [List.map_cons, dictGet_cons]
    by_cases h : p.1 == k
    · simp [h]
    · have hk' : dictHasKey d k = true := by
        rw [dictHasKey_cons] at hk
        simpa [h] using hk
      simpa [h] using ih hk'

/-- Storing at an existing key makes lookup of that key yield the value. -/
theorem dictGet_set_self (d : Dict) (k : Option Int) (v : Node)
    (hk : dictHasKey d k = true) : dictGet (dictSet d k v) k = some v := by
  unfold dictSet
  rw [if_pos hk]
  exact dictGet_map_set_self d k v hk

/-- The in-place branch of a store does not affect other keys. -/
theorem dictGet_map_set_ne : ∀ (d : Dict) (k : Option Int) (v : Node) (k' : Option Int),
    (k == k') = false →
    dictGet (d.map fun p => if p.1 == k then (k, v) else p) k' = dictGet d k' := by
  intro d k v k' hkk'
  induction d with
  | nil => rfl
  | cons p d ih =>
    rw [List.map_cons, dictGet_cons, dictGet_cons]
    by_cases h : p.1 == k
    · have hpk : p.1 = k := eq_of_beq h
      rw [if_pos h]
      simp only [hpk, hkk', Bool.false_eq_true, if_false]
      exact ih
    · rw [if_neg h]
      by_cases h' : p.1 == k'
      · simp [h']
      · simp only [h', Bool.false_eq_true, if_false]
        exact ih

/-- The append branch of a store does not affect other keys. -/
theorem dictGet_append_ne : ∀ (d : Dict) (k : Option Int) (v : Node) (k' : Option Int),
    (k == k') = false →
    dictGet (d ++ [(k, v)]) k' = dictGet d k' := by
  intro d k v k' hkk'
  induction d with
  | nil =>
    rw [List.nil_append, dictGet_cons]
    simp [hkk']
  | cons p d ih =>
    rw [List.cons_append, dictGet_cons, dictGet_cons]
    by_cases h' : p.1 == k'
    · simp [h']
    · simp only [h', Bool.false_eq_true, if_false]
      exact ih

/-- Storing at one key does not affect lookups at any other key. -/
theorem dictGet_set_ne (d : Dict) (k : Option Int) (v : Node) (k' : Option Int)
    (hne : k' ≠ k) : dictGet (dictSet d k v) k' = dictGet d k' := by
  have hkk' : (k == k') = false := by
    rw [beq_eq_false_iff_ne]
    exact fun h => hne h.symm
  unfold dictSet
  split
  · exact dictGet_map_set_ne d k v k' hkk'
  · exact dictGet_append_ne d k v k' hkk'

/-- Unfolding lemma: `pot` at a cons cell. -/
theorem pot_cons (p : Option Int × Node) (d : Dict) :
    pot (p :: d) =
      (if p.2.already_printed then 0 else p.2.ancestors.length + p.2.descendants.length)
        + pot d := by
  simp [pot]

/-- Marking entries as printed can only shrink the pending adjacency
weight. -/
theorem pot_map_le (d : Dict) (k : Option Int) (nv : Node)
    (hnv : nv.already_printed = true) :
    pot (d.map fun p => if p.1 == k then (k, nv) else p) ≤ pot d := by
  induction d with
  | nil => exact le_refl _
  | cons p d ih =>
    rw [List.map_cons, pot_cons, pot_cons]
    by_cases h : p.1 == k
    · rw [if_pos h]
      simp only [hnv, if_pos]
      omega
    · rw [if_neg h]
      omega

/-- Printing an unprinted node removes its full adjacency weight from the
pending total. -/
theorem pot_map_set : ∀ (d : Dict) (k : Option Int) (n : Node),
    dictGet d k = some n → n.already_printed = false →
    pot (d.map fun p => if p.1 == k then (k, { n with already_printed := true }) else p)
      + n.ancestors.length + n.descendants.length ≤ pot d := by
  intro d k n
  induction d with
  | nil => intro hg _; simp [dictGet] at hg
  | cons p d ih =>
    intro hg hp
    rw [dictGet_cons] at hg
    rw [List.map_cons, pot_cons, pot_cons]
    by_cases h : p.1 == k
    · rw [if_pos h] at hg
      have hn : p.2 = n := Option.some.inj hg
      have hle := pot_map_le d k { n with already_printed := true } rfl
      rw [if_pos h]
      simp only [hn, hp, Bool.false_eq_true, if_false]
      simp only [Node.already_printed, if_true]
      omega
    · rw [if_neg h] at hg
      have := ih hg hp
      rw [if_neg h]
      omega

/-- `pot` variant of `pot_map_set` phrased through `dictSet`. -/
theorem pot_set (d : Dict) (k : Option Int) (n : Node)
    (hg : dictGet d k = some n) (hp : n.already_printed = false) :
    pot (dictSet d k { n with already_printed := true })
      + n.ancestors.length + n.descendants.length ≤ pot d := by
  have hk : dictHasKey d k = true := by
    rw [dictHasKey_eq_isSome, hg]
    rfl
  unfold dictSet
  rw [if_pos hk]
  exact pot_map_set d k n hg hp

/-- The per-advisor edge accumulation loop appends exactly the node's edge
block. -/
theorem edge_foldl (dd : Dict) (k : Option Int) : ∀ (anc : List Int) (e : String),
    anc.foldl (fun acc a => if dictHasKey dd (some a) then acc ++ edgeLine a k else acc) e
      = e ++ edgeBlock dd k anc := by
  intro anc
  induction anc with
  | nil => intro e; simp [edgeBlock, concatAll]
  | cons a anc ih =>
    intro e
    rw [List.foldl_cons]
    by_cases h : dictHasKey dd (some a)
    · rw [if_pos h, ih]
      simp only [edgeBlock, List.map_cons, concatAll, h, if_pos]
      rw [String.append_assoc]
    · rw [if_neg h, ih]
      simp only [edgeBlock, List.map_cons, concatAll, h, Bool.false_eq_true, if_false]
      simp

/-- The edge block only depends on the dict through key membership. -/
theorem edgeBlock_congr (d1 d2 : Dict) (k : Option Int)
    (h : ∀ a : Int, dictHasKey d1 (some a) = dictHasKey d2 (some a)) :
    ∀ anc : List Int, edgeBlock d1 k anc = edgeBlock d2 k anc := by
  intro anc
  induction anc with
  | nil => rfl
  | cons a anc ih =>
    simp only [edgeBlock, List.map_cons, concatAll] at ih ⊢
    rw [h a, ih]

/-- The rendering loop never exhausts the `fuelFor` fuel: pops consume one
unit, and pushes are paid for by the pending adjacency weight released when
an unprinted node is marked printed. -/
theorem renderLoop_isSome (ia idf : Bool) : ∀ (fuel : Nat) (nodes : Dict)
    (stack : List (Option Int)) (d e : String),
    stack.length + pot nodes ≤ fuel →
    (renderLoop ia idf fuel nodes stack d e).isSome = true := by
  intro fuel
  induction fuel with
  | zero =>
    intro nodes stack d e h
    cases stack with
    | nil => rfl
    | cons a s => simp [List.length_cons] at h
  | succ fuel ih =>
    intro nodes stack d e h
    cases stack with
    | nil => rfl
    | cons node_id rest =>
      rw [List.length_cons] at h
      simp only [renderLoop]
      cases hg : dictGet nodes node_id with
      | none =>
        apply ih
        omega
      | some node =>
        dsimp only
        by_cases hp : node.already_printed
        · rw [if_pos hp]
          apply ih
          omega
        · rw [if_neg hp]
          have hp' : node.already_printed = false := by simpa using hp
          have hpotle := pot_set nodes node_id node hg hp'
          apply ih
          by_cases hia : ia <;> by_cases hidf : idf <;>
            simp only [hia, hidf, Bool.false_eq_true, if_true, if_false,
              List.length_append, List.length_reverse, List.length_map] <;>
            omega

/-- An empty stack ends the loop immediately, whatever the fuel. -/
theorem renderLoop_nil (ia idf : Bool) (fuel : Nat) (nodes : Dict) (d e : String) :
    renderLoop ia idf fuel nodes [] d e = some (nodes, d, e) := by
  cases fuel <;> rfl

/-- Postcondition of the rendering loop: key membership is preserved,
printedness is monotone, every id that was on the stack ends settled
(absent or printed), and the accumulators grow by exactly the node lines
and edge blocks of some emission sequence (edge membership tests taken
against the incoming dict, whose key set never changes). -/
theorem renderLoop_spec (ia idf : Bool) : ∀ (fuel : Nat) (nodes : Dict)
    (stack : List (Option Int)) (d e : String) (nodes' : Dict) (d' e' : String),
    renderLoop ia idf fuel nodes stack d e = some (nodes', d', e') →
    (∀ k, dictHasKey nodes' k = dictHasKey nodes k) ∧
    (∀ k n, dictGet nodes k = some n → n.already_printed = true →
      ∃ n2, dictGet nodes' k = some n2 ∧ n2.already_printed = true) ∧
    (∀ k, k ∈ stack → ∀ n2, dictGet nodes' k = some n2 → n2.already_printed = true) ∧
    ∃ em : List (Option Int × Node),
      d' = d ++ concatAll (em.map fun p => nodeLine p.1 p.2 ++ "\n") ∧
      e' = e ++ concatAll (em.map fun p => edgeBlock nodes p.1 p.2.ancestors) := by
  intro fuel
  induction fuel with
  | zero =>
    intro nodes stack d e nodes' d' e' hL
    cases stack with
    | cons a s => exact absurd hL (by simp [renderLoop])
    | nil =>
      rw [renderLoop_nil] at hL
      simp only [Option.some.injEq, Prod.mk.injEq] at hL
      obtain ⟨h1, h2, h3⟩ := hL
      subst h1; subst h2; subst h3
      refine ⟨fun k => rfl, fun k n hn hp => ⟨n, hn, hp⟩,
        fun k hk => absurd hk (List.not_mem_nil k), [], ?_, ?_⟩ <;>
        simp [concatAll]
  | succ fuel ih =>
    intro nodes stack d e nodes' d' e' hL
    cases stack with
    | nil =>
      rw [renderLoop_nil] at hL
      simp only [Option.some.injEq, Prod.mk.injEq] at hL
      obtain ⟨h1, h2, h3⟩ := hL
      subst h1; subst h2; subst h3
      refine ⟨fun k => rfl, fun k n hn hp => ⟨n, hn, hp⟩,
        fun k hk => absurd hk (List.not_mem_nil k), [], ?_, ?_⟩ <;>
        simp [concatAll]
    | cons node_id rest =>
      simp only [renderLoop] at hL
      cases hg : dictGet nodes node_id with
      | none =>
        rw [hg] at hL
        dsimp only at hL
        obtain ⟨K, M, S, E⟩ := ih nodes rest d e nodes' d' e' hL
        refine ⟨K, M, ?_, E⟩
        intro k hk n2 hn2
        rcases List.mem_cons.mp hk with rfl | hk'
        · have hfalse : dictHasKey nodes k = false := by
            rw [dictHasKey_eq_isSome, hg]
            rfl
          have habs : dictHasKey nodes' k = false := by rw [K k, hfalse]
          rw [dictHasKey_eq_isSome, hn2] at habs
          simp at habs
        · exact S k hk' n2 hn2
      | some node =>
        rw [hg] at hL
        dsimp only at hL
        by_cases hp : node.already_printed
        · rw [if_pos hp] at hL
          obtain ⟨K, M, S, E⟩ := ih nodes rest d e nodes' d' e' hL
          refine ⟨K, M, ?_, E⟩
          intro k hk n2 hn2
          rcases List.mem_cons.mp hk with rfl | hk'
          · obtain ⟨n3, hn3, hp3⟩ := M k node hg hp
            have heq : n2 = n3 := by
              rw [hn2] at hn3
              exact Option.some.inj hn3
            rw [heq]
            exact hp3
          · exact S k hk' n2 hn2
        · rw [if_neg hp] at hL
          have hp' : node.already_printed = false := by simpa using hp
          have hk : dictHasKey nodes node_id = true := by
            rw [dictHasKey_eq_isSome, hg]
            rfl
          obtain ⟨K1, M1, S1, em', hd', he'⟩ := ih _ _ _ _ _ _ _ hL
          have keysEq : ∀ k',
              dictHasKey (dictSet nodes node_id { node with already_printed := true }) k'
                = dictHasKey nodes k' := dictSet_hasKey _ _ _ hk
          refine ⟨fun k => (K1 k).trans (keysEq k), ?_, ?_, ?_⟩
          · intro k n hn hpn
            by_cases hkid : k = node_id
            · subst hkid
              have hnn : n = node := by
                rw [hg] at hn
                exact (Option.some.inj hn).symm
              rw [hnn, hp'] at hpn
              cases hpn
            · apply M1 k n ?_ hpn
              rw [dictGet_set_ne nodes node_id _ k hkid]
              exact hn
          · intro k hkmem n2 hn2
            rcases List.mem_cons.mp hkmem with rfl | hk'
            · have hset : dictGet (dictSet nodes k { node with already_printed := true }) k
                  = some { node with already_printed := true } :=
                dictGet_set_self _ _ _ hk
              obtain ⟨n3, hn3, hp3⟩ := M1 k { node with already_printed := true } hset rfl
              have heq : n2 = n3 := by
                rw [hn2] at hn3
                exact Option.some.inj hn3
              rw [heq]
              exact hp3
            · have hmem2 : k ∈
                  (if idf then (node.descendants.map some).reverse ++
                      (if ia then (node.ancestors.map some).reverse ++ rest else rest)
                    else (if ia then (node.ancestors.map some).reverse ++ rest else rest)) := by
                by_cases hia : ia <;> by_cases hidf : idf <;>
                  simp [hia, hidf, List.mem_append, hk']
              exact S1 k hmem2 n2 hn2
          · refine ⟨(node_id, node) :: em', ?_, ?_⟩
            · rw [hd']
              simp [concatAll, String.append_assoc]
            · rw [he', edge_foldl]
              have hEB : ∀ anc : List Int, ∀ k0 : Option Int,
                  edgeBlock (dictSet nodes node_id { node with already_printed := true }) k0 anc
                    = edgeBlock nodes k0 anc :=
                fun anc k0 => edgeBlock_congr _ _ k0 (fun a => keysEq (some a)) anc
              rw [hEB]
              have hmapEB : em'.map (fun p =>
                    edgeBlock (dictSet nodes node_id { node with already_printed := true })
                      p.1 p.2.ancestors)
                  = em'.map (fun p => edgeBlock nodes p.1 p.2.ancestors) :=
                List.map_congr_left (fun p _ => hEB p.2.ancestors p.1)
              rw [hmapEB]
              simp [concatAll, String.append_assoc]

/-- When every stacked id is already settled (absent or printed), the loop
pops everything without emitting anything or touching the dict. -/
theorem renderLoop_settled (ia idf : Bool) : ∀ (fuel : Nat) (nodes : Dict)
    (stack : List (Option Int)) (d e : String),
    (∀ k, k ∈ stack → ∀ n, dictGet nodes k = some n → n.already_printed = true) →
    stack.length ≤ fuel →
    renderLoop ia idf fuel nodes stack d e = some (nodes, d, e) := by
  intro fuel
  induction fuel with
  | zero =>
    intro nodes stack d e hs hlen
    cases stack with
    | nil => rfl
    | cons a s => simp at hlen
  | succ fuel ih =>
    intro nodes stack d e hs hlen
    cases stack with
    | nil => rfl
    | cons node_id rest =>
      rw [List.length_cons] at hlen
      simp only [renderLoop]
      cases hg : dictGet nodes node_id with
      | none =>
        exact ih nodes rest d e (fun k hk => hs k (List.mem_cons_of_mem _ hk)) (by omega)
      | some node =>
        dsimp only
        have hp : node.already_printed = true := hs node_id (List.mem_cons_self _ _) node hg
        rw [if_pos hp]
        exact ih nodes rest d e (fun k hk => hs k (List.mem_cons_of_mem _ hk)) (by omega)

/-- Unfolding of `generate_dot_file` when the heads list is present and the
loop returns. -/
theorem generate_dot_file_eq (g : Graph) (ia idf : Bool) (hs : List Node)
    (hh : g.heads = some hs) (nodes1 : Dict) (d1 e1 : String)
    (hL : renderLoop ia idf (fuelFor g.nodes ((hs.map Node.get_id).reverse)) g.nodes
        ((hs.map Node.get_id).reverse) dotPreamble "" = some (nodes1, d1, e1)) :
    g.generate_dot_file ia idf = (d1 ++ e1 ++ "\n\x7d\n", { g with nodes := nodes1 }) := by
  simp only [Graph.generate_dot_file, hh, hL]

/-- Claim C9: for every Graph with a heads list and any flag combination,
the traversal loop of `generate_dot_file` run with the `fuelFor` iteration
bound drains its stack and produces a result — the visited-flag guard lets
each node contribute its adjacency lists to the stack at most once, so the
loop is finite even on cyclic adjacency data. -/
theorem C9_renderer_terminates (g : Graph) (ia idf : Bool) (hs : List Node)
    (hh : g.heads = some hs) :
    (renderLoop ia idf (fuelFor g.nodes ((hs.map Node.get_id).reverse))
        g.nodes ((hs.map Node.get_id).reverse) dotPreamble "").isSome = true :=
  renderLoop_isSome ia idf _ g.nodes _ dotPreamble "" (le_refl _)

/-- Witness for C9 at the concrete one-node graph. -/
theorem C9_renderer_terminates_witness :
    (renderLoop false false (fuelFor gA5.nodes (([nodeA5].map Node.get_id).reverse))
        gA5.nodes (([nodeA5].map Node.get_id).reverse) dotPreamble "").isSome = true :=
  C9_renderer_terminates gA5 false false [nodeA5] (by decide)

/-- Claim C1 counterexample: the renderer emits the node line followed by
`\n`, then the (empty) edge accumulator, then `\n}\n`, so a blank line
separates the node-definition line from the closing brace; the claimed
output without that blank line is not what the code returns. -/
theorem C1_counterexample :
    (gA5.generate_dot_file false false).1 ≠
      "digraph genealogy \x7b\n    graph [charset=\"utf-8\"];\n    node [shape=plaintext];\n    edge [style=bold];\n\n    5 [label=\"A. Mathematician\"];\n\x7d\n" := by
  decide

/-- Claim C1 (amended): the single-head render returns exactly the claimed
bytes except that a blank line does separate the node-definition line from
the closing brace. -/
theorem C1_single_node_render :
    (gA5.generate_dot_file false false).1 =
      "digraph genealogy \x7b\n    graph [charset=\"utf-8\"];\n    node [shape=plaintext];\n    edge [style=bold];\n\n    5 [label=\"A. Mathematician\"];\n\n\x7d\n" := by
  decide

/-- Claim C2 counterexample: on a graph whose first render is non-empty,
the second render is also non-empty (it still emits the preamble and the
closing brace), so "returns the empty string the second time" is false. -/
theorem C2_counterexample :
    (gA5.generate_dot_file false false).1 ≠ "" ∧
    ((gA5.generate_dot_file false false).2.generate_dot_file false false).1 ≠ "" := by
  exact ⟨by decide, by decide⟩

/-- Claim C2 (amended): after a first render returned a non-empty string,
a second render with the same flags on the same (flag-mutated) graph
returns exactly the fixed skeleton — preamble, blank line, closing brace —
with no node-definition or edge lines, rather than the empty string. -/
theorem C2_second_render (g : Graph) (ia idf : Bool)
    (h1 : (g.generate_dot_file ia idf).1 ≠ "") :
    ((g.generate_dot_file ia idf).2.generate_dot_file ia idf).1 =
      dotPreamble ++ "\n\x7d\n" := by
  cases hh : g.heads with
  | none =>
    exfalso
    apply h1
    simp [Graph.generate_dot_file, hh]
  | some hs =>
    have hsome := renderLoop_isSome ia idf
      (fuelFor g.nodes ((hs.map Node.get_id).reverse)) g.nodes
      ((hs.map Node.get_id).reverse) dotPreamble "" (le_refl _)
    obtain ⟨⟨nodes1, d1, e1⟩, hL⟩ := Option.isSome_iff_exists.mp hsome
    obtain ⟨K, M, S, E⟩ := renderLoop_spec ia idf _ _ _ _ _ _ _ _ hL
    have hfirst := generate_dot_file_eq g ia idf hs hh nodes1 d1 e1 hL
    have hL2 := renderLoop_settled ia idf
      (fuelFor nodes1 ((hs.map Node.get_id).reverse)) nodes1
      ((hs.map Node.get_id).reverse) dotPreamble ""
      (fun k hk n hn => S k hk n hn) (Nat.le_add_right _ _)
    have hsecond := generate_dot_file_eq { g with nodes := nodes1 } ia idf hs hh
      nodes1 dotPreamble "" hL2
    rw [hfirst]
    dsimp only
    rw [hsecond]
    simp

/-- Witness for C2 (amended) at the concrete one-node graph. -/
theorem C2_second_render_witness :
    ((gA5.generate_dot_file false false).2.generate_dot_file false false).1 =
      dotPreamble ++ "\n\x7d\n" :=
  C2_second_render gA5 false false (by decide)

/-- Claim C4: the rendered string decomposes as preamble, then the node
lines of the emitted nodes in emission order (each followed by a single
newline), then — after every node-definition line — the edge blocks of the
emitted nodes in the same order, where each node's block holds exactly one
edge line `\n    <ancestor> -> <node>;` per stored-ancestor entry whose id
is a key of the graph, in stored order, and nothing for absent ancestors;
finally `\n}\n`. -/
theorem C4_edge_lines (g : Graph) (ia idf : Bool) (hs : List Node)
    (hh : g.heads = some hs) :
    ∃ em : List (Option Int × Node),
      (g.generate_dot_file ia idf).1 =
        dotPreamble ++ concatAll (em.map fun p => nodeLine p.1 p.2 ++ "\n")
          ++ concatAll (em.map fun p => edgeBlock g.nodes p.1 p.2.ancestors)
          ++ "\n\x7d\n" := by
  have hsome := renderLoop_isSome ia idf
    (fuelFor g.nodes ((hs.map Node.get_id).reverse)) g.nodes
    ((hs.map Node.get_id).reverse) dotPreamble "" (le_refl _)
  obtain ⟨⟨nodes1, d1, e1⟩, hL⟩ := Option.isSome_iff_exists.mp hsome
  obtain ⟨K, M, S, em, hd, he⟩ := renderLoop_spec ia idf _ _ _ _ _ _ _ _ hL
  refine ⟨em, ?_⟩
  rw [generate_dot_file_eq g ia idf hs hh nodes1 d1 e1 hL]
  dsimp only
  rw [hd, he]
  simp [String.append_assoc]

/-- Witness for C4 at the graph with head 5 (ancestors `[3]`) and node 3. -/
theorem C4_edge_lines_witness :
    ∃ em : List (Option Int × Node),
      (gFiveThree.generate_dot_file true false).1 =
        dotPreamble ++ concatAll (em.map fun p => nodeLine p.1 p.2 ++ "\n")
          ++ concatAll (em.map fun p => edgeBlock gFiveThree.nodes p.1 p.2.ancestors)
          ++ "\n\x7d\n" :=
  C4_edge_lines gFiveThree true false [nodeFive] (by decide)
